import Mathlib

/-!
Shallow embedding of the iNES cartridge decoding core of `rusty-nes`
(`src/cartridge.rs`): the pure header decoder `NesHeader::from_bytes` and
the stream-consuming loader `Cartridge::from_file`.

Bytes are modelled as `Nat`; a byte stream is a `List Nat`.  The Rust code
reports errors as `String`s with a distinct message at each failure site;
here each site is represented by a distinct constructor of `LoadError`
(`InvalidSignature` for "Not a valid iNES file format", `EmptyProgramRom`
for "PRG ROM size is 0, which is invalid.", and `ShortRead stage` for the
stage-specific `read_exact` failure messages).  `BufReader::read_exact`
over a file is modelled by `readExact`, which consumes exactly `n` bytes
from the front of the remaining stream or fails; the debug `println!`
calls in the Rust code are side-effect-free diagnostics and are omitted.
-/

/-- Nametable mirroring, from `enum Mirroring` in `src/cartridge.rs`. -/
inductive Mirroring
  | Vertical
  | Horizontal
  | FourScreen
deriving DecidableEq, Repr

/-- The decoded iNES header, from `struct NesHeader` in `src/cartridge.rs`. -/
structure NesHeader where
  prg_rom_size : Nat
  chr_rom_size : Nat
  flags6 : Nat
  flags7 : Nat
  mapper_number : Nat
  mirroring : Mirroring
  has_battery_backed_ram : Bool
  has_trainer : Bool
  four_screen_mode : Bool
deriving DecidableEq, Repr

/-- The loader stage at which a short read occurred (identifying which
`read_exact` call site produced the error message). -/
inductive Stage
  | headerStage
  | trainerStage
  | programRomStage
  | graphicsRomStage
deriving DecidableEq, Repr

/-- Error outcomes of header decoding and cartridge loading; each
constructor stands for one distinct error-message site in `src/cartridge.rs`. -/
inductive LoadError
  | InvalidSignature
  | EmptyProgramRom
  | ShortRead (stage : Stage)
deriving DecidableEq, Repr

/-- `NesHeader::from_bytes` from `src/cartridge.rs`: decode a 16-byte
buffer into a header, failing when the first four bytes are not the
signature `4E 45 53 1A`. -/
def NesHeader.from_bytes (header_bytes : List Nat) : Except LoadError NesHeader :=
  if header_bytes.take 4 ≠ [0x4E, 0x45, 0x53, 0x1A] then
    .error .InvalidSignature
  else
    let prg_rom_size := header_bytes.getD 4 0
    let chr_rom_size := header_bytes.getD 5 0
    let flags6 := header_bytes.getD 6 0
    let flags7 := header_bytes.getD 7 0
    let mirroring :=
      if flags6 &&& 0x08 ≠ 0 then Mirroring.FourScreen
      else if flags6 &&& 0x01 ≠ 0 then Mirroring.Vertical
      else Mirroring.Horizontal
    let has_battery_backed_ram := flags6 &&& 0x02 != 0
    let has_trainer := flags6 &&& 0x04 != 0
    let mapper_lower_nibble := flags6 >>> 4
    let mapper_upper_nibble := flags7 &&& 0xF0
    let mapper_number := mapper_upper_nibble ||| mapper_lower_nibble
    .ok { prg_rom_size, chr_rom_size, flags6, flags7, mapper_number, mirroring,
          has_battery_backed_ram, has_trainer,
          four_screen_mode := flags6 &&& 0x08 != 0 }

/-- `BufReader::read_exact` into an `n`-byte buffer, modelled over the
remaining stream: returns the `n` bytes read and the rest of the stream,
or fails with the given stage's short-read error. -/
def readExact (n : Nat) (stage : Stage) (s : List Nat) :
    Except LoadError (List Nat × List Nat) :=
  if n ≤ s.length then .ok (s.take n, s.drop n) else .error (.ShortRead stage)

/-- The loaded cartridge image, from `struct Cartridge` in `src/cartridge.rs`. -/
structure Cartridge where
  header : NesHeader
  prg_rom : List Nat
  chr_rom : List Nat
  trainer : Option (List Nat)
deriving DecidableEq, Repr

/-- `Cartridge::from_file` from `src/cartridge.rs`, with the opened file
modelled as the byte stream `s`: read the 16-byte header, decode it,
read the optional 512-byte trainer, reject a zero-sized program ROM,
read the program ROM, then read the graphics ROM unless its size is zero.
Any bytes of `s` beyond the graphics ROM are never inspected. -/
def Cartridge.from_file (s : List Nat) : Except LoadError Cartridge := do
  let (header_bytes, s) ← readExact 16 .headerStage s
  let header ← NesHeader.from_bytes header_bytes
  let (trainer, s) ←
    if header.has_trainer then do
      let (trainer_data, s) ← readExact 512 .trainerStage s
      pure (some trainer_data, s)
    else
      pure ((none : Option (List Nat)), s)
  let prg_rom_size_bytes := header.prg_rom_size * 16 * 1024
  if prg_rom_size_bytes = 0 then
    .error .EmptyProgramRom
  else do
    let (prg_rom, s) ← readExact prg_rom_size_bytes .programRomStage s
    let chr_rom_size_bytes := header.chr_rom_size * 8 * 1024
    let (chr_rom, _) ←
      if chr_rom_size_bytes > 0 then
        readExact chr_rom_size_bytes .graphicsRomStage s
      else
        pure (([] : List Nat), s)
    pure { header, prg_rom, chr_rom, trainer }

/-- Modelled from the spec: the spec's round-trip property (§8) speaks of
"constructing header bytes from a given field set", an encoder that has no
counterpart in `src/`; per the binary-format table (§6) it is the 4-byte
signature, the two unit counts, the two flag bytes, and 8 reserved zero
bytes. -/
def encodeHeader (prg chr f6 f7 : Nat) : List Nat :=
  [0x4E, 0x45, 0x53, 0x1A, prg, chr, f6, f7, 0, 0, 0, 0, 0, 0, 0, 0]

/-- Modelled from the spec: the header record a given field set determines,
per the derivation rules of spec §3 (mapper nibbles, mirroring precedence,
flag bits of flags6). -/
def headerOfFields (prg chr f6 f7 : Nat) : NesHeader :=
  { prg_rom_size := prg, chr_rom_size := chr, flags6 := f6, flags7 := f7,
    mapper_number := (f7 &&& 0xF0) ||| (f6 >>> 4),
    mirroring :=
      if f6.testBit 3 then .FourScreen
      else if f6.testBit 0 then .Vertical
      else .Horizontal,
    has_battery_backed_ram := f6.testBit 1,
    has_trainer := f6.testBit 2,
    four_screen_mode := f6.testBit 3 }

/-- A concrete well-formed header byte buffer: valid signature, 1 program
ROM unit, 0 graphics ROM units, no trainer, all flags clear. -/
def exHeaderBytes : List Nat :=
  [0x4E, 0x45, 0x53, 0x1A, 1, 0, 0, 0, 0, 0, 0, 0, 0, 0, 0, 0]

/-- The header `exHeaderBytes` decodes to. -/
def exHeader : NesHeader :=
  { prg_rom_size := 1, chr_rom_size := 0, flags6 := 0, flags7 := 0,
    mapper_number := 0, mirroring := .Horizontal,
    has_battery_backed_ram := false, has_trainer := false,
    four_screen_mode := false }

/-- A complete cartridge stream: `exHeaderBytes` followed by exactly one
16 KiB program-ROM unit. -/
def exStream : List Nat := exHeaderBytes ++ List.replicate 16384 7

/-- The image `exStream` loads to. -/
def exCart : Cartridge :=
  { header := exHeader, prg_rom := List.replicate 16384 7, chr_rom := [],
    trainer := none }

/-- `exStream` with one extra trailing byte that the loader never reads. -/
def exStream2 : List Nat := exHeaderBytes ++ (List.replicate 16384 7 ++ [9])

/-- The header decoded from the flags-exercising buffer used by the
repository's own `test_header_flags_and_mirroring` test (flags6 = 0b00010111,
flags7 = 0b00010000). -/
def exHeader2 : NesHeader :=
  { prg_rom_size := 1, chr_rom_size := 1, flags6 := 0b00010111, flags7 := 0b00010000,
    mapper_number := 0b00010001, mirroring := .Vertical,
    has_battery_backed_ram := true, has_trainer := true,
    four_screen_mode := false }

/-- A header whose flags6 has both bit 3 (four-screen) and bit 0 (vertical)
set, decoding to `FourScreen`. -/
def exHeader3 : NesHeader :=
  { prg_rom_size := 1, chr_rom_size := 1, flags6 := 9, flags7 := 0,
    mapper_number := 0, mirroring := .FourScreen,
    has_battery_backed_ram := false, has_trainer := false,
    four_screen_mode := true }

/-- A header with zero program-ROM units and no trainer. -/
def exHeader5 : NesHeader :=
  { prg_rom_size := 0, chr_rom_size := 0, flags6 := 0, flags7 := 0,
    mapper_number := 0, mirroring := .Horizontal,
    has_battery_backed_ram := false, has_trainer := false,
    four_screen_mode := false }

/-- A header whose flags6 bit 2 announces a trainer. -/
def exHeader7 : NesHeader :=
  { prg_rom_size := 1, chr_rom_size := 0, flags6 := 4, flags7 := 0,
    mapper_number := 0, mirroring := .Horizontal,
    has_battery_backed_ram := false, has_trainer := true,
    four_screen_mode := false }

theorem except_bind_ok {α β ε : Type} (a : α) (f : α → Except ε β) :
    (Except.ok a >>= f) = f a := rfl

theorem except_bind_error {α β ε : Type} (e : ε) (f : α → Except ε β) :
    ((Except.error e : Except ε α) >>= f) = Except.error e := rfl

theorem except_pure_bind {α β ε : Type} (a : α) (f : α → Except ε β) :
    ((pure a : Except ε α) >>= f) = f a := rfl

theorem readExact_of_le {n : Nat} {stage : Stage} {s : List Nat} (h : n ≤ s.length) :
    readExact n stage s = .ok (s.take n, s.drop n) := by
  rw [readExact, if_pos h]

theorem readExact_of_lt {n : Nat} {stage : Stage} {s : List Nat} (h : s.length < n) :
    readExact n stage s = .error (.ShortRead stage) := by
  rw [readExact, if_neg (by omega)]

theorem land_two_pow_ne_zero_iff (n i : Nat) : n &&& 2 ^ i ≠ 0 ↔ n.testBit i = true := by
  rw [Nat.and_two_pow]
  cases h : n.testBit i <;> simp

theorem land_two_pow_bne (n i : Nat) : (n &&& 2 ^ i != 0) = n.testBit i := by
  rw [Bool.eq_iff_iff, bne_iff_ne]
  exact land_two_pow_ne_zero_iff n i

theorem exHeaderBytes_length : exHeaderBytes.length = 16 := rfl

theorem exStream_take16 : exStream.take 16 = exHeaderBytes :=
  List.take_left' exHeaderBytes_length

theorem exStream_drop16 : exStream.drop 16 = List.replicate 16384 7 :=
  List.drop_left' exHeaderBytes_length

theorem exStream_length : exStream.length = 16400 := by
  rw [exStream, List.length_append, exHeaderBytes_length, List.length_replicate]

theorem exStream2_take16 : exStream2.take 16 = exHeaderBytes :=
  List.take_left' exHeaderBytes_length

theorem exStream2_length : exStream2.length = 16401 := by
  rw [exStream2, List.length_append, exHeaderBytes_length, List.length_append,
    List.length_replicate]
  rfl

theorem from_bytes_exHeaderBytes :
    NesHeader.from_bytes exHeaderBytes = .ok exHeader := rfl

theorem ex_read_prg : readExact 16384 Stage.programRomStage (List.replicate 16384 7) =
    .ok (List.replicate 16384 7, []) := by
  rw [readExact_of_le (by rw [List.length_replicate])]
  rw [List.take_replicate, List.drop_replicate]
  norm_num

theorem ex_load : Cartridge.from_file exStream = .ok exCart := by
  unfold Cartridge.from_file
  rw [readExact_of_le (by rw [exStream_length]; omega)]
  simp only [except_bind_ok]
  rw [exStream_take16, from_bytes_exHeaderBytes]
  simp only [except_bind_ok]
  rw [if_neg (show ¬(exHeader.has_trainer = true) by decide)]
  simp only [except_pure_bind]
  rw [if_neg (show ¬(exHeader.prg_rom_size * 16 * 1024 = 0) by decide)]
  rw [show exHeader.prg_rom_size * 16 * 1024 = 16384 from rfl]
  rw [exStream_drop16, ex_read_prg]
  simp only [except_bind_ok]
  rw [if_neg (show ¬(exHeader.chr_rom_size * 8 * 1024 > 0) by decide)]
  rfl

/-- Claim C1: for every 16-byte input, header decoding fails with
`InvalidSignature` exactly when the first four bytes differ from
`4E 45 53 1A`; no partial header is returned on a mismatch, and a match
always yields a header. -/
theorem from_bytes_invalid_signature_iff (b : List Nat) (hlen : b.length = 16) :
    (NesHeader.from_bytes b = .error .InvalidSignature ↔
      b.take 4 ≠ [0x4E, 0x45, 0x53, 0x1A]) ∧
    (b.take 4 = [0x4E, 0x45, 0x53, 0x1A] →
      ∃ h, NesHeader.from_bytes b = .ok h) := by
  unfold NesHeader.from_bytes
  by_cases hsig : b.take 4 = [0x4E, 0x45, 0x53, 0x1A] <;> simp [hsig]

theorem from_bytes_invalid_signature_iff_witness :
    (NesHeader.from_bytes [0, 0, 0, 0, 0, 0, 0, 0, 0, 0, 0, 0, 0, 0, 0, 0] =
        .error .InvalidSignature ↔
      ([0, 0, 0, 0, 0, 0, 0, 0, 0, 0, 0, 0, 0, 0, 0, 0] : List Nat).take 4 ≠
        [0x4E, 0x45, 0x53, 0x1A]) ∧
    (([0, 0, 0, 0, 0, 0, 0, 0, 0, 0, 0, 0, 0, 0, 0, 0] : List Nat).take 4 =
        [0x4E, 0x45, 0x53, 0x1A] →
      ∃ h, NesHeader.from_bytes [0, 0, 0, 0, 0, 0, 0, 0, 0, 0, 0, 0, 0, 0, 0, 0] = .ok h) :=
  from_bytes_invalid_signature_iff [0, 0, 0, 0, 0, 0, 0, 0, 0, 0, 0, 0, 0, 0, 0, 0]
    (by decide)

/-- Claim C2: every decoded header satisfies
`mapper_number = (flags7 &&& 0xF0) ||| (flags6 >>> 4)`, and on the concrete
input with flags6 = 0b00010111 and flags7 = 0b00010000 the decoded mapper
number is 0x11 (17). -/
theorem mapper_number_invariant :
    (∀ (b : List Nat) (h : NesHeader), NesHeader.from_bytes b = .ok h →
      h.mapper_number = (h.flags7 &&& 0xF0) ||| (h.flags6 >>> 4)) ∧
    (∃ h, NesHeader.from_bytes
        [0x4E, 0x45, 0x53, 0x1A, 1, 1, 0b00010111, 0b00010000, 0, 0, 0, 0, 0, 0, 0, 0] =
        .ok h ∧ h.mapper_number = 0x11) := by
  constructor
  · intro b h hok
    unfold NesHeader.from_bytes at hok
    by_cases hsig : b.take 4 = [0x4E, 0x45, 0x53, 0x1A]
    · simp only [hsig, ne_eq, not_true_eq_false, if_false, Except.ok.injEq] at hok
      subst hok
      rfl
    · simp [hsig] at hok
  · exact ⟨_, rfl, rfl⟩

theorem mapper_number_invariant_witness :
    exHeader2.mapper_number = (exHeader2.flags7 &&& 0xF0) ||| (exHeader2.flags6 >>> 4) :=
  mapper_number_invariant.1
    [0x4E, 0x45, 0x53, 0x1A, 1, 1, 0b00010111, 0b00010000, 0, 0, 0, 0, 0, 0, 0, 0]
    exHeader2 rfl

/-- Claim C3: for every 16-byte input that decodes to a header, the
mirroring is `FourScreen` when flags6 bit 3 is set (whatever bit 0 is),
`Vertical` when bit 3 is clear and bit 0 is set, and `Horizontal` when
both are clear. -/
theorem mirroring_of_flags6_bits (b : List Nat) (hlen : b.length = 16) (h : NesHeader)
    (hok : NesHeader.from_bytes b = .ok h) :
    (h.flags6.testBit 3 = true → h.mirroring = .FourScreen) ∧
    (h.flags6.testBit 3 = false → h.flags6.testBit 0 = true → h.mirroring = .Vertical) ∧
    (h.flags6.testBit 3 = false → h.flags6.testBit 0 = false → h.mirroring = .Horizontal) := by
  unfold NesHeader.from_bytes at hok
  by_cases hsig : b.take 4 = [0x4E, 0x45, 0x53, 0x1A]
  · simp only [hsig, ne_eq, not_true_eq_false, if_false, Except.ok.injEq] at hok
    subst hok
    have h8 := land_two_pow_ne_zero_iff (b.getD 6 0) 3
    rw [show (2 : Nat) ^ 3 = 8 from rfl] at h8
    have h1 := land_two_pow_ne_zero_iff (b.getD 6 0) 0
    rw [show (2 : Nat) ^ 0 = 1 from rfl] at h1
    dsimp only
    refine ⟨?_, ?_, ?_⟩
    · intro hb3
      rw [if_pos (h8.mpr hb3)]
    · intro hb3 hb0
      have n8 : ¬(b.getD 6 0 &&& 8 ≠ 0) := by rw [h8, hb3]; simp
      rw [if_neg n8, if_pos (h1.mpr hb0)]
    · intro hb3 hb0
      have n8 : ¬(b.getD 6 0 &&& 8 ≠ 0) := by rw [h8, hb3]; simp
      have n1 : ¬(b.getD 6 0 &&& 1 ≠ 0) := by rw [h1, hb0]; simp
      rw [if_neg n8, if_neg n1]
  · simp [hsig] at hok

theorem mirroring_of_flags6_bits_witness :
    (exHeader3.flags6.testBit 3 = true → exHeader3.mirroring = .FourScreen) ∧
    (exHeader3.flags6.testBit 3 = false → exHeader3.flags6.testBit 0 = true →
      exHeader3.mirroring = .Vertical) ∧
    (exHeader3.flags6.testBit 3 = false → exHeader3.flags6.testBit 0 = false →
      exHeader3.mirroring = .Horizontal) :=
  mirroring_of_flags6_bits [0x4E, 0x45, 0x53, 0x1A, 1, 1, 9, 0, 0, 0, 0, 0, 0, 0, 0, 0]
    (by decide) exHeader3 rfl

/-- Claim C4: every successfully loaded image has a trainer region exactly
when the header announces one, and then of exactly 512 bytes; a non-empty
program-ROM region of exactly `prg_rom_size * 16384` bytes; and a
graphics-ROM region of exactly `chr_rom_size * 8192` bytes. -/
theorem from_file_ok_image_shape (s : List Nat) (c : Cartridge)
    (hload : Cartridge.from_file s = .ok c) :
    c.trainer.map List.length = (if c.header.has_trainer = true then some 512 else none) ∧
    c.prg_rom.length = c.header.prg_rom_size * 16384 ∧
    c.prg_rom ≠ [] ∧
    c.chr_rom.length = c.header.chr_rom_size * 8192 := by
  unfold Cartridge.from_file at hload
  by_cases h16 : 16 ≤ s.length
  case neg =>
    rw [readExact_of_lt (by omega)] at hload
    exact Except.noConfusion hload
  case pos =>
  rw [readExact_of_le h16] at hload
  simp only [except_bind_ok] at hload
  cases hfb : NesHeader.from_bytes (List.take 16 s) with
  | error e =>
    rw [hfb] at hload
    exact Except.noConfusion hload
  | ok header =>
  rw [hfb] at hload
  simp only [except_bind_ok] at hload
  by_cases htr : header.has_trainer
  · rw [if_pos htr] at hload
    by_cases h512 : 512 ≤ (List.drop 16 s).length
    case neg =>
      rw [readExact_of_lt (by omega)] at hload
      exact Except.noConfusion hload
    case pos =>
    rw [readExact_of_le h512] at hload
    simp only [except_bind_ok, except_pure_bind] at hload
    by_cases hz : header.prg_rom_size * 16 * 1024 = 0
    · rw [if_pos hz] at hload
      exact Except.noConfusion hload
    · rw [if_neg hz] at hload
      by_cases hp : header.prg_rom_size * 16 * 1024 ≤ (List.drop 512 (List.drop 16 s)).length
      case neg =>
        rw [readExact_of_lt (by omega)] at hload
        exact Except.noConfusion hload
      case pos =>
      rw [readExact_of_le hp] at hload
      simp only [except_bind_ok] at hload
      by_cases hc : header.chr_rom_size * 8 * 1024 > 0
      · rw [if_pos hc] at hload
        by_cases hg : header.chr_rom_size * 8 * 1024 ≤
            (List.drop (header.prg_rom_size * 16 * 1024) (List.drop 512 (List.drop 16 s))).length
        case neg =>
          rw [readExact_of_lt (by omega)] at hload
          exact Except.noConfusion hload
        case pos =>
        rw [readExact_of_le hg] at hload
        simp only [except_bind_ok, except_pure_bind] at hload
        injection hload with hrec
        subst hrec
        have h512len : (List.take 512 (List.drop 16 s)).length = 512 := by
          simp only [List.length_take]
          omega
        refine ⟨by simp [htr, h512len], ?_, ?_, ?_⟩
        · simp only [List.length_take]
          omega
        · intro hnil
          have := congrArg List.length hnil
          simp only [List.length_take, List.length_nil] at this
          omega
        · simp only [List.length_take]
          omega
      · rw [if_neg hc] at hload
        injection hload with hrec
        subst hrec
        have h512len : (List.take 512 (List.drop 16 s)).length = 512 := by
          simp only [List.length_take]
          omega
        refine ⟨by simp [htr, h512len], ?_, ?_, ?_⟩
        · simp only [List.length_take]
          omega
        · intro hnil
          have := congrArg List.length hnil
          simp only [List.length_take, List.length_nil] at this
          omega
        · simp only [List.length_nil]
          omega
  · rw [if_neg htr] at hload
    simp only [except_pure_bind] at hload
    by_cases hz : header.prg_rom_size * 16 * 1024 = 0
    · rw [if_pos hz] at hload
      exact Except.noConfusion hload
    · rw [if_neg hz] at hload
      by_cases hp : header.prg_rom_size * 16 * 1024 ≤ (List.drop 16 s).length
      case neg =>
        rw [readExact_of_lt (by omega)] at hload
        exact Except.noConfusion hload
      case pos =>
      rw [readExact_of_le hp] at hload
      simp only [except_bind_ok] at hload
      by_cases hc : header.chr_rom_size * 8 * 1024 > 0
      · rw [if_pos hc] at hload
        by_cases hg : header.chr_rom_size * 8 * 1024 ≤
            (List.drop (header.prg_rom_size * 16 * 1024) (List.drop 16 s)).length
        case neg =>
          rw [readExact_of_lt (by omega)] at hload
          exact Except.noConfusion hload
        case pos =>
        rw [readExact_of_le hg] at hload
        simp only [except_bind_ok, except_pure_bind] at hload
        injection hload with hrec
        subst hrec
        refine ⟨by simp [htr], ?_, ?_, ?_⟩
        · simp only [List.length_take]
          omega
        · intro hnil
          have := congrArg List.length hnil
          simp only [List.length_take, List.length_nil] at this
          omega
        · simp only [List.length_take]
          omega
      · rw [if_neg hc] at hload
        injection hload with hrec
        subst hrec
        refine ⟨by simp [htr], ?_, ?_, ?_⟩
        · simp only [List.length_take]
          omega
        · intro hnil
          have := congrArg List.length hnil
          simp only [List.length_take, List.length_nil] at this
          omega
        · simp only [List.length_nil]
          omega

theorem from_file_ok_image_shape_witness :
    exCart.trainer.map List.length =
      (if exCart.header.has_trainer = true then some 512 else none) ∧
    exCart.prg_rom.length = exCart.header.prg_rom_size * 16384 ∧
    exCart.prg_rom ≠ [] ∧
    exCart.chr_rom.length = exCart.header.chr_rom_size * 8192 :=
  from_file_ok_image_shape exStream exCart ex_load

/-- Claim C5: a stream whose header decodes with zero program-ROM units and
no trainer fails with `EmptyProgramRom`, even when nothing follows the
16-byte header — the zero check precedes any program-ROM read. -/
theorem from_file_empty_prg_error (s : List Nat) (h : NesHeader)
    (hlen : 16 ≤ s.length)
    (hok : NesHeader.from_bytes (s.take 16) = .ok h)
    (htr : h.has_trainer = false)
    (hprg : h.prg_rom_size = 0) :
    Cartridge.from_file s = .error .EmptyProgramRom := by
  unfold Cartridge.from_file
  rw [readExact_of_le hlen]
  simp only [except_bind_ok]
  rw [hok]
  simp only [except_bind_ok]
  rw [if_neg (by simp [htr])]
  simp only [except_pure_bind, htr, Bool.false_eq_true, if_false, hprg]
  simp

theorem from_file_empty_prg_error_witness :
    Cartridge.from_file [0x4E, 0x45, 0x53, 0x1A, 0, 0, 0, 0, 0, 0, 0, 0, 0, 0, 0, 0] =
      .error .EmptyProgramRom :=
  from_file_empty_prg_error [0x4E, 0x45, 0x53, 0x1A, 0, 0, 0, 0, 0, 0, 0, 0, 0, 0, 0, 0]
    exHeader5 (by decide) rfl rfl rfl

/-- Claim C6: a stream whose header has zero graphics-ROM units and that
ends right after the program ROM — whether or not a trainer precedes it —
loads successfully, with an empty graphics-ROM region. -/
theorem from_file_chr_zero_ok (s : List Nat) (h : NesHeader)
    (hok : NesHeader.from_bytes (s.take 16) = .ok h)
    (hchr : h.chr_rom_size = 0)
    (hprg : h.prg_rom_size ≠ 0)
    (hlen : s.length = 16 + (if h.has_trainer then 512 else 0) +
        h.prg_rom_size * 16384) :
    ∃ c, Cartridge.from_file s = .ok c ∧ c.chr_rom = [] := by
  unfold Cartridge.from_file
  by_cases htr : h.has_trainer
  · rw [if_pos htr] at hlen
    rw [readExact_of_le (by omega)]
    simp only [except_bind_ok]
    rw [hok]
    simp only [except_bind_ok]
    rw [if_pos htr]
    rw [readExact_of_le (by rw [List.length_drop]; omega)]
    simp only [except_bind_ok, except_pure_bind]
    rw [if_neg (show ¬(h.prg_rom_size * 16 * 1024 = 0) by omega)]
    rw [readExact_of_le (by simp only [List.length_drop]; omega)]
    simp only [except_bind_ok]
    rw [hchr]
    rw [if_neg (by norm_num)]
    exact ⟨_, rfl, rfl⟩
  · rw [if_neg htr] at hlen
    rw [readExact_of_le (by omega)]
    simp only [except_bind_ok]
    rw [hok]
    simp only [except_bind_ok]
    rw [if_neg (by simp [htr])]
    simp only [except_pure_bind]
    rw [if_neg (show ¬(h.prg_rom_size * 16 * 1024 = 0) by omega)]
    rw [readExact_of_le (by rw [List.length_drop]; omega)]
    simp only [except_bind_ok]
    rw [hchr]
    rw [if_neg (by norm_num)]
    exact ⟨_, rfl, rfl⟩

theorem from_file_chr_zero_ok_witness :
    ∃ c, Cartridge.from_file exStream = .ok c ∧ c.chr_rom = [] :=
  from_file_chr_zero_ok exStream exHeader
    (by rw [exStream_take16]; exact from_bytes_exHeaderBytes)
    rfl (by decide) (by rw [exStream_length]; rfl)

/-- Claim C7: a stream whose header announces a trainer but that has fewer
than 512 bytes after the 16-byte header fails with the trainer-stage short
read. -/
theorem from_file_trainer_short_read (s : List Nat) (h : NesHeader)
    (hok : NesHeader.from_bytes (s.take 16) = .ok h)
    (htr : h.has_trainer = true)
    (h16 : 16 ≤ s.length) (hshort : s.length < 16 + 512) :
    Cartridge.from_file s = .error (.ShortRead .trainerStage) := by
  unfold Cartridge.from_file
  rw [readExact_of_le h16]
  simp only [except_bind_ok]
  rw [hok]
  simp only [except_bind_ok]
  rw [if_pos htr]
  rw [readExact_of_lt (by rw [List.length_drop]; omega)]
  rfl

theorem from_file_trainer_short_read_witness :
    Cartridge.from_file [0x4E, 0x45, 0x53, 0x1A, 1, 0, 4, 0, 0, 0, 0, 0, 0, 0, 0, 0] =
      .error (.ShortRead .trainerStage) :=
  from_file_trainer_short_read [0x4E, 0x45, 0x53, 0x1A, 1, 0, 4, 0, 0, 0, 0, 0, 0, 0, 0, 0]
    exHeader7 rfl rfl (by decide) (by decide)

/-- Claim C8: the header decoder performs no range validation on the unit
counts: any 16-byte input with a valid signature decodes successfully and
copies byte 4 into `prg_rom_size` and byte 5 into `chr_rom_size` verbatim,
zero included. -/
theorem from_bytes_units_verbatim (b : List Nat) (hlen : b.length = 16)
    (hsig : b.take 4 = [0x4E, 0x45, 0x53, 0x1A]) :
    ∃ h, NesHeader.from_bytes b = .ok h ∧
      h.prg_rom_size = b.getD 4 0 ∧ h.chr_rom_size = b.getD 5 0 := by
  unfold NesHeader.from_bytes
  simp [hsig]

theorem from_bytes_units_verbatim_witness :
    ∃ h, NesHeader.from_bytes [0x4E, 0x45, 0x53, 0x1A, 0, 5, 0, 0, 0, 0, 0, 0, 0, 0, 0, 0] =
        .ok h ∧
      h.prg_rom_size =
        ([0x4E, 0x45, 0x53, 0x1A, 0, 5, 0, 0, 0, 0, 0, 0, 0, 0, 0, 0] : List Nat).getD 4 0 ∧
      h.chr_rom_size =
        ([0x4E, 0x45, 0x53, 0x1A, 0, 5, 0, 0, 0, 0, 0, 0, 0, 0, 0, 0] : List Nat).getD 5 0 :=
  from_bytes_units_verbatim [0x4E, 0x45, 0x53, 0x1A, 0, 5, 0, 0, 0, 0, 0, 0, 0, 0, 0, 0]
    (by decide) rfl

/-- Claim C9: round-trip — encoding a field set (unit counts and the two
flag bytes) into a 16-byte header with the valid signature and decoding it
reproduces the field set exactly, including the derived mapper number,
mirroring, and flag booleans of spec §3. -/
theorem from_bytes_encode_roundtrip (prg chr f6 f7 : Nat) (hprg : prg < 256)
    (hchr : chr < 256) (h6 : f6 < 256) (h7 : f7 < 256) :
    NesHeader.from_bytes (encodeHeader prg chr f6 f7) =
      .ok (headerOfFields prg chr f6 f7) := by
  unfold NesHeader.from_bytes encodeHeader headerOfFields
  have e3 := land_two_pow_bne f6 3
  have e0 := land_two_pow_bne f6 0
  have e1 := land_two_pow_bne f6 1
  have e2 := land_two_pow_bne f6 2
  norm_num at e3 e0 e1 e2
  simp [e3, e0, e1, e2]
  have hh := land_two_pow_ne_zero_iff f6 3
  norm_num at hh
  by_cases h3 : f6.testBit 3
  · simp [h3, hh.mpr h3]
  · have hz : f6 &&& 8 = 0 := by
      by_contra hc
      exact h3 (hh.mp hc)
    simp [h3, hz]

theorem from_bytes_encode_roundtrip_witness :
    NesHeader.from_bytes (encodeHeader 1 2 23 16) = .ok (headerOfFields 1 2 23 16) :=
  from_bytes_encode_roundtrip 1 2 23 16 (by decide) (by decide) (by decide) (by decide)

/-- Claim C10: any stream that starts with a decodable header with nonzero
program-ROM units and is long enough for the trainer (when announced), the
program ROM, and the graphics ROM loads successfully; trailing bytes beyond
those regions never cause a failure. -/
theorem from_file_sufficient_stream_ok (s : List Nat) (h : NesHeader)
    (hok : NesHeader.from_bytes (s.take 16) = .ok h)
    (hprg : h.prg_rom_size ≠ 0)
    (hlen : 16 + (if h.has_trainer then 512 else 0) + h.prg_rom_size * 16384 +
        h.chr_rom_size * 8192 ≤ s.length) :
    ∃ c, Cartridge.from_file s = .ok c := by
  unfold Cartridge.from_file
  by_cases htr : h.has_trainer
  · rw [if_pos htr] at hlen
    rw [readExact_of_le (by omega)]
    simp only [except_bind_ok]
    rw [hok]
    simp only [except_bind_ok]
    rw [if_pos htr]
    rw [readExact_of_le (by rw [List.length_drop]; omega)]
    simp only [except_bind_ok, except_pure_bind]
    rw [if_neg (show ¬(h.prg_rom_size * 16 * 1024 = 0) by omega)]
    rw [readExact_of_le (by simp only [List.length_drop]; omega)]
    simp only [except_bind_ok]
    by_cases hchr : h.chr_rom_size * 8 * 1024 > 0
    · rw [if_pos hchr]
      rw [readExact_of_le (by simp only [List.length_drop]; omega)]
      simp only [except_bind_ok, except_pure_bind]
      exact ⟨_, rfl⟩
    · rw [if_neg hchr]
      exact ⟨_, rfl⟩
  · rw [if_neg htr] at hlen
    rw [readExact_of_le (by omega)]
    simp only [except_bind_ok]
    rw [hok]
    simp only [except_bind_ok]
    rw [if_neg (by simp [htr])]
    simp only [except_pure_bind]
    rw [if_neg (show ¬(h.prg_rom_size * 16 * 1024 = 0) by omega)]
    rw [readExact_of_le (by rw [List.length_drop]; omega)]
    simp only [except_bind_ok]
    by_cases hchr : h.chr_rom_size * 8 * 1024 > 0
    · rw [if_pos hchr]
      rw [readExact_of_le (by simp only [List.length_drop]; omega)]
      simp only [except_bind_ok, except_pure_bind]
      exact ⟨_, rfl⟩
    · rw [if_neg hchr]
      exact ⟨_, rfl⟩

theorem from_file_sufficient_stream_ok_witness :
    ∃ c, Cartridge.from_file exStream2 = .ok c :=
  from_file_sufficient_stream_ok exStream2 exHeader
    (by rw [exStream2_take16]; exact from_bytes_exHeaderBytes)
    (by decide)
    (by rw [exStream2_length]; decide)
